import Mathlib

/-!
Verification of the two-pass RISC-V teaching assembler (sources:
`assembler.py`, `vidhush_bhaiya.py`, `final_code.py`).

Strings are embedded as `List Char`.  Python's machine integers do not
overflow in this program (all arithmetic is exact big-int arithmetic in
Python), so immediates are embedded as `Int` and addresses as `Nat`.
Process-exiting error paths are embedded as `Except Err _`; the `Err`
constructors follow the error taxonomy of the design document.
`final_code.py`'s `_bin_repr`, `_encode_*` and `_parse_source_lines` are
verbatim copies of the corresponding `assembler.py` code and are covered by
the `Asm` embedding.
-/

/-- Error taxonomy of the assembler (every error aborts the run). -/
inductive Err where
  | invalidLabel
  | emptyProgram
  | missingHalt
  | unknownInstruction
  | arityError
  | invalidRegister
  | invalidImmediate
  | immediateOutOfRange
  | misalignedBranch
  | misalignedJump
deriving DecidableEq, Repr

/-- Whitespace as recognised by Python's `str.strip` / `str.split(None)`
(restricted to the characters that can occur in the sources' inputs). -/
def isWs (c : Char) : Bool := c == ' ' || c == '\t' || c == '\n' || c == '\r'

/-- Remove trailing whitespace (the right half of Python's `str.strip`). -/
def stripEnd (l : List Char) : List Char := (l.reverse.dropWhile isWs).reverse

/-- Python's `str.strip()`: remove leading and trailing whitespace. -/
def pyStrip (l : List Char) : List Char := stripEnd (l.dropWhile isWs)

/-- Python's `":" in s`. -/
def hasColon (l : List Char) : Bool := l.any (fun c => c == ':')

/-- Python's `s.split(":", 1)`: split at the first colon.  The sources only
use the result when a colon is present. -/
def splitColon : List Char → List Char × List Char
  | [] => ([], [])
  | c :: cs =>
    if c == ':' then ([], cs)
    else (c :: (splitColon cs).1, (splitColon cs).2)

/-- First character is alphabetic (Python `s and s[0].isalpha()`; the inputs
are ASCII, where `Char.isAlpha` agrees with Python's `str.isalpha`). -/
def headIsAlpha : List Char → Bool
  | [] => false
  | c :: _ => c.isAlpha

/-- Python's `s.split(None, 1)`: the part before the first whitespace run and
the part after it; `none` when there is no second part. -/
def splitFirstWs (s : List Char) : Option (List Char × List Char) :=
  if ((s.dropWhile (fun c => !isWs c)).dropWhile isWs).isEmpty then none
  else some (s.takeWhile (fun c => !isWs c),
             (s.dropWhile (fun c => !isWs c)).dropWhile isWs)

/-- Python's `s.split(",")` (all fields kept, including empty ones). -/
def splitOnComma : List Char → List (List Char)
  | [] => [[]]
  | c :: cs =>
    match splitOnComma cs, c == ',' with
    | r, true => [] :: r
    | [], false => [[c]]
    | x :: xs, false => (c :: x) :: xs

/-- `[op.strip() for op in s.split(",") if op.strip() != ""]`. -/
def splitCommas (l : List Char) : List (List Char) :=
  ((splitOnComma l).map pyStrip).filter (fun x => !x.isEmpty)

/-- `re.split(r'[,\(\)]', s)` followed by strip and dropping empties
(the operand splitter of `vidhush_bhaiya.py`). -/
def splitDelims : List Char → List (List Char)
  | [] => [[]]
  | c :: cs =>
    match splitDelims cs, c == ',' || c == '(' || c == ')' with
    | r, true => [] :: r
    | [], false => [[c]]
    | x :: xs, false => (c :: x) :: xs

/-- Operand splitter of `vidhush_bhaiya.py`. -/
def vSplit (l : List Char) : List (List Char) :=
  ((splitDelims l).map pyStrip).filter (fun x => !x.isEmpty)

/-- Association-list lookup (first match wins); Python dictionaries are
embedded as association lists whose most recent binding is first, so this
lookup realises Python's overwrite-on-rebind semantics. -/
def lookupL {α : Type} : List (List Char × α) → List Char → Option α
  | [], _ => none
  | p :: ps, k => if p.1 == k then some p.2 else lookupL ps k

/-- Fixed-width big-endian binary digits of `n` (low `bits` bits),
the result of Python's `format(n, '0{bits}b')` for `0 ≤ n < 2^bits`. -/
def natBits : Nat → Nat → List Char
  | _, 0 => []
  | n, b + 1 => natBits (n / 2) b ++ [if n % 2 = 1 then '1' else '0']

/-- Value of a big-endian binary digit string. -/
def bitsVal (s : List Char) : Nat :=
  s.foldl (fun a c => 2 * a + (if c = '1' then 1 else 0)) 0

/-- Reinterpret a binary digit string as a signed (two's-complement) value of
its own width. -/
def signedOfBits (s : List Char) : Int :=
  if 2 * bitsVal s < 2 ^ s.length then (bitsVal s : Int)
  else (bitsVal s : Int) - 2 ^ s.length

/-- `to_binary(n, bits)` of `assembler.py` (= `_bin_repr` of
`final_code.py`): two's-complement packing; fails when the adjusted value is
outside `[0, 2^bits)`. -/
def toBinary (n : Int) (bits : Nat) : Option (List Char) :=
  if (if n < 0 then 2 ^ bits + n else n) ≥ 2 ^ bits ∨
     (if n < 0 then 2 ^ bits + n else n) < 0 then none
  else some (natBits (if n < 0 then 2 ^ bits + n else n).toNat bits)

/-- Digit-string parser used by the decimal branch of Python's `int`. -/
def parseNatDigits (s : List Char) : Option Nat :=
  if s.isEmpty then none
  else if s.all Char.isDigit then
    some (s.foldl (fun a c => 10 * a + (c.toNat - '0'.toNat)) 0)
  else none

/-- Python's `int(s)` (decimal; the inputs never use underscores). -/
def parseDecInt (l : List Char) : Option Int :=
  match pyStrip l with
  | '-' :: ds => (parseNatDigits ds).map (fun n => -(n : Int))
  | '+' :: ds => (parseNatDigits ds).map (fun n => (n : Int))
  | ds => (parseNatDigits ds).map (fun n => (n : Int))

/-- Hexadecimal digit value. -/
def hexVal (c : Char) : Option Nat :=
  if c.isDigit then some (c.toNat - '0'.toNat)
  else if 'a' ≤ c ∧ c ≤ 'f' then some (c.toNat - 'a'.toNat + 10)
  else if 'A' ≤ c ∧ c ≤ 'F' then some (c.toNat - 'A'.toNat + 10)
  else none

/-- Hex-digit-string parser. -/
def parseHexDigits : List Char → Option Nat
  | [] => none
  | [c] => hexVal c
  | c :: cs => match hexVal c, parseHexDigits cs with
    | some v, some r => some (v * 16 ^ cs.length + r)
    | _, _ => none

/-- Python's `int(s, 16)` on a `0x`/`-0x`-prefixed token. -/
def parseHexInt (l : List Char) : Option Int :=
  match pyStrip l with
  | '-' :: '0' :: 'x' :: ds => (parseHexDigits ds).map (fun n => -(n : Int))
  | '0' :: 'x' :: ds => (parseHexDigits ds).map (fun n => (n : Int))
  | _ => none

/-- `\w` of Python's `re` (ASCII range, as used by the sources). -/
def isWordChar (c : Char) : Bool := c.isAlphanum || c == '_'

/-- `re.match(r"(-?\w+)\((\w+)\)", s)`: optional minus and a word, then a
parenthesised word; a prefix match, trailing characters are ignored. -/
def memMatch (l : List Char) : Option (List Char × List Char) :=
  let neg : Bool := match l with | '-' :: _ => true | _ => false
  let rest := match l with | '-' :: t => t | _ => l
  let w1 := rest.takeWhile isWordChar
  let r1 := rest.dropWhile isWordChar
  if w1.isEmpty then none
  else
    match r1 with
    | '(' :: r2 =>
      let w2 := r2.takeWhile isWordChar
      let r3 := r2.dropWhile isWordChar
      if w2.isEmpty then none
      else
        match r3 with
        | ')' :: _ => some (if neg then '-' :: w1 else w1, w2)
        | _ => none
    | _ => none

namespace Asm

/-- Register table of `assembler.py` (= `_get_register` of `final_code.py`):
the 32 canonical names plus the alias `fp` for `s0`. -/
def registers : List (List Char × Nat) :=
  [("zero".toList, 0), ("ra".toList, 1), ("sp".toList, 2), ("gp".toList, 3),
   ("tp".toList, 4), ("t0".toList, 5), ("t1".toList, 6), ("t2".toList, 7),
   ("s0".toList, 8), ("fp".toList, 8), ("s1".toList, 9),
   ("a0".toList, 10), ("a1".toList, 11), ("a2".toList, 12), ("a3".toList, 13),
   ("a4".toList, 14), ("a5".toList, 15), ("a6".toList, 16), ("a7".toList, 17),
   ("s2".toList, 18), ("s3".toList, 19), ("s4".toList, 20), ("s5".toList, 21),
   ("s6".toList, 22), ("s7".toList, 23), ("s8".toList, 24), ("s9".toList, 25),
   ("s10".toList, 26), ("s11".toList, 27), ("t3".toList, 28), ("t4".toList, 29),
   ("t5".toList, 30), ("t6".toList, 31)]

/-- `R_instructions` of `assembler.py`: name ↦ (funct7, funct3, opcode). -/
def R_instructions : List (List Char × (List Char × List Char × List Char)) :=
  [("add".toList, ("0000000".toList, "000".toList, "0110011".toList)),
   ("sub".toList, ("0100000".toList, "000".toList, "0110011".toList)),
   ("slt".toList, ("0000000".toList, "010".toList, "0110011".toList)),
   ("srl".toList, ("0000000".toList, "101".toList, "0110011".toList)),
   ("or".toList, ("0000000".toList, "110".toList, "0110011".toList)),
   ("and".toList, ("0000000".toList, "111".toList, "0110011".toList))]

/-- `I_instructions` of `assembler.py`: name ↦ (opcode, funct3). -/
def I_instructions : List (List Char × (List Char × List Char)) :=
  [("addi".toList, ("0010011".toList, "000".toList)),
   ("lw".toList, ("0000011".toList, "010".toList)),
   ("jalr".toList, ("1100111".toList, "000".toList))]

/-- `S_instructions` of `assembler.py`. -/
def S_instructions : List (List Char × (List Char × List Char)) :=
  [("sw".toList, ("0100011".toList, "010".toList))]

/-- `B_instructions` of `assembler.py`. -/
def B_instructions : List (List Char × (List Char × List Char)) :=
  [("beq".toList, ("1100011".toList, "000".toList)),
   ("bne".toList, ("1100011".toList, "001".toList)),
   ("blt".toList, ("1100011".toList, "100".toList))]

/-- `J_instructions` of `assembler.py`. -/
def J_instructions : List (List Char × List Char) :=
  [("jal".toList, "1101111".toList)]

/-- `parse_register` of `assembler.py`. -/
def parse_register (l : List Char) : Except Err Nat :=
  match lookupL registers (pyStrip l) with
  | some r => .ok r
  | none => .error .invalidRegister

/-- `parse_immediate` of `assembler.py` (decimal or `0x`-hexadecimal; its
`bits` argument is unused by the source and omitted here). -/
def parse_immediate (l : List Char) : Option Int :=
  let s := pyStrip l
  if "0x".toList.isPrefixOf s || "-0x".toList.isPrefixOf s then parseHexInt s
  else parseDecInt s

/-- `encode_R_type`: `{funct7}{rs2}{rs1}{funct3}{rd}{opcode}`. -/
def encode_R_type (mn : List Char) (rd rs1 rs2 : Nat) : Except Err (List Char) :=
  match lookupL R_instructions mn with
  | none => .error .unknownInstruction
  | some info =>
    match toBinary rd 5, toBinary rs1 5, toBinary rs2 5 with
    | some rdB, some rs1B, some rs2B =>
      .ok (info.1 ++ rs2B ++ rs1B ++ info.2.1 ++ rdB ++ info.2.2)
    | _, _, _ => .error .invalidRegister

/-- `encode_I_type`: `{imm[11:0]}{rs1}{funct3}{rd}{opcode}`. -/
def encode_I_type (mn : List Char) (rd rs1 : Nat) (imm : Int) :
    Except Err (List Char) :=
  match lookupL I_instructions mn with
  | none => .error .unknownInstruction
  | some info =>
    match toBinary imm 12 with
    | none => .error .immediateOutOfRange
    | some immBin =>
      match toBinary rd 5, toBinary rs1 5 with
      | some rdB, some rs1B => .ok (immBin ++ rs1B ++ info.2 ++ rdB ++ info.1)
      | _, _ => .error .invalidRegister

/-- `encode_S_type`: `{imm[11:5]}{rs2}{rs1}{funct3}{imm[4:0]}{opcode}`. -/
def encode_S_type (mn : List Char) (rs1 rs2 : Nat) (imm : Int) :
    Except Err (List Char) :=
  match lookupL S_instructions mn with
  | none => .error .unknownInstruction
  | some info =>
    match toBinary imm 12 with
    | none => .error .immediateOutOfRange
    | some immBin =>
      match toBinary rs1 5, toBinary rs2 5 with
      | some rs1B, some rs2B =>
        .ok (immBin.take 7 ++ rs2B ++ rs1B ++ info.2 ++ immBin.drop 7 ++ info.1)
      | _, _ => .error .invalidRegister

/-- `encode_B_type`: an odd immediate is rejected, the immediate is shifted
right by one and its 12-bit packing is scattered as
`{imm_bin[0]}{imm_bin[1:7]}{rs2}{rs1}{funct3}{imm_bin[7:11]}{imm_bin[11]}{opcode}`.
(Python's `>> 1` is a floor shift; on the even values that reach it, it
agrees with `Int` division by 2.) -/
def encode_B_type (mn : List Char) (rs1 rs2 : Nat) (imm : Int) :
    Except Err (List Char) :=
  match lookupL B_instructions mn with
  | none => .error .unknownInstruction
  | some info =>
    if imm % 2 ≠ 0 then .error .misalignedBranch
    else
      match toBinary (imm / 2) 12 with
      | none => .error .immediateOutOfRange
      | some ib =>
        match toBinary rs1 5, toBinary rs2 5 with
        | some rs1B, some rs2B =>
          .ok (ib.take 1 ++ (ib.drop 1).take 6 ++ rs2B ++ rs1B ++ info.2 ++
               (ib.drop 7).take 4 ++ ib.drop 11 ++ info.1)
        | _, _ => .error .invalidRegister

/-- `encode_J_type`: an odd immediate is rejected, then the (unshifted!)
immediate is packed into 20 bits and the pieces are emitted in the order
`{imm_bin[0]}{imm_bin[10:]}{imm_bin[9]}{imm_bin[1:9]}{rd}{opcode}`. -/
def encode_J_type (mn : List Char) (rd : Nat) (imm : Int) :
    Except Err (List Char) :=
  match lookupL J_instructions mn with
  | none => .error .unknownInstruction
  | some opc =>
    if imm % 2 ≠ 0 then .error .misalignedJump
    else
      match toBinary imm 20 with
      | none => .error .immediateOutOfRange
      | some ib =>
        match toBinary rd 5 with
        | some rdB =>
          .ok (ib.take 1 ++ ib.drop 10 ++ (ib.drop 9).take 1 ++
               (ib.drop 1).take 8 ++ rdB ++ opc)
        | none => .error .invalidRegister

/-- Immediate-operand resolution shared by the branches of
`process_instruction`: a token that is a known label yields
`label_address - current_address`, otherwise it is parsed as an integer. -/
def resolveImm (tok : List Char) (labels : List (List Char × Nat))
    (addr : Nat) : Except Err Int :=
  match lookupL labels tok with
  | some a => .ok ((a : Int) - (addr : Int))
  | none =>
    match parse_immediate tok with
    | some v => .ok v
    | none => .error .invalidImmediate

/-- `process_instruction` of `assembler.py`: dispatch on the mnemonic and
encode.  An empty (stripped) instruction yields `none` (Python's `None`). -/
def processInstruction (instr : List Char) (addr : Nat)
    (labels : List (List Char × Nat)) : Except Err (Option (List Char)) :=
  let s := pyStrip instr
  if s.isEmpty then .ok none
  else
    let mn := match splitFirstWs s with | some p => p.1 | none => s
    let ops := match splitFirstWs s with | some p => splitCommas p.2 | none => []
    if (lookupL R_instructions mn).isSome then
      match ops with
      | [o1, o2, o3] => do
        let rd ← parse_register o1
        let rs1 ← parse_register o2
        let rs2 ← parse_register o3
        let w ← encode_R_type mn rd rs1 rs2
        return some w
      | _ => .error .arityError
    else if (lookupL I_instructions mn).isSome then
      if mn == "lw".toList then
        match ops with
        | [o1, o2] => do
          let rd ← parse_register o1
          match memMatch o2 with
          | none => .error .invalidImmediate
          | some m => do
            let imm ← resolveImm m.1 labels addr
            let rs1 ← parse_register m.2
            let w ← encode_I_type mn rd rs1 imm
            return some w
        | _ => .error .arityError
      else
        -- `jalr` and `addi` share the `rd, rs1, imm` shape
        match ops with
        | [o1, o2, o3] => do
          let rd ← parse_register o1
          let rs1 ← parse_register o2
          let imm ← resolveImm o3 labels addr
          let w ← encode_I_type mn rd rs1 imm
          return some w
        | _ => .error .arityError
    else if (lookupL S_instructions mn).isSome then
      match ops with
      | [o1, o2] => do
        let rs2 ← parse_register o1
        match memMatch o2 with
        | none => .error .invalidImmediate
        | some m => do
          let imm ← resolveImm m.1 labels addr
          let rs1 ← parse_register m.2
          let w ← encode_S_type mn rs1 rs2 imm
          return some w
      | _ => .error .arityError
    else if (lookupL B_instructions mn).isSome then
      match ops with
      | [o1, o2, o3] => do
        let rs1 ← parse_register o1
        let rs2 ← parse_register o2
        let imm ← resolveImm o3 labels addr
        let w ← encode_B_type mn rs1 rs2 imm
        return some w
      | _ => .error .arityError
    else if (lookupL J_instructions mn).isSome then
      match ops with
      | [o1, o2] => do
        let rd ← parse_register o1
        let imm ← resolveImm o2 labels addr
        let w ← encode_J_type mn rd imm
        return some w
      | _ => .error .arityError
    else .error .unknownInstruction

/-- State of the first pass of `main` in `assembler.py`: the next free
address, the emitted instruction records `(text, address)` in program order,
and the label table (most recent binding first). -/
structure P1State where
  addr : Nat
  instrs : List (List Char × Nat)
  labels : List (List Char × Nat)
deriving DecidableEq, Repr

/-- The initial first-pass state. -/
def initState : P1State := ⟨0, [], []⟩

/-- One line of the first pass of `main` in `assembler.py`: blank lines are
skipped; a line with a colon binds its (stripped) label part, validates that
the label starts with a letter, and emits the remainder as an instruction if
it is non-empty; any other line is an instruction. -/
def pass1Line (st : P1State) (line : List Char) : Except Err P1State :=
  if pyStrip line = [] then .ok st
  else if hasColon (pyStrip line) then
    if headIsAlpha (pyStrip (splitColon (pyStrip line)).1) then
      if pyStrip (splitColon (pyStrip line)).2 = [] then
        .ok ⟨st.addr, st.instrs,
             (pyStrip (splitColon (pyStrip line)).1, st.addr) :: st.labels⟩
      else
        .ok ⟨st.addr + 4,
             st.instrs ++ [(pyStrip (splitColon (pyStrip line)).2, st.addr)],
             (pyStrip (splitColon (pyStrip line)).1, st.addr) :: st.labels⟩
    else .error .invalidLabel
  else .ok ⟨st.addr + 4, st.instrs ++ [(pyStrip line, st.addr)], st.labels⟩

/-- The first pass over a list of source lines. -/
def pass1 : List (List Char) → P1State → Except Err P1State
  | [], st => .ok st
  | l :: ls, st =>
    match pass1Line st l with
    | .error e => .error e
    | .ok st' => pass1 ls st'

/-- The virtual-halt check of `main` in `assembler.py` on the last
instruction's text: it must start with `beq` and the part after the first
whitespace run, with all space characters removed, must be `zero,zero,0`. -/
def checkHalt (s : List Char) : Bool :=
  "beq".toList.isPrefixOf s &&
    match splitFirstWs s with
    | none => false
    | some p => p.2.filter (fun c => !(c == ' ')) == "zero,zero,0".toList

/-- Second pass: encode every instruction record. -/
def encodeAll (labels : List (List Char × Nat)) :
    List (List Char × Nat) → Except Err (List (List Char))
  | [] => .ok []
  | (txt, a) :: rest => do
    let w ← processInstruction txt a labels
    let ws ← encodeAll labels rest
    match w with
    | some enc => return enc :: ws
    | none => return ws

/-- `main` of `assembler.py` without the file I/O: first pass, empty-program
check, virtual-halt check, second pass. -/
def assembleProgram (lines : List (List Char)) : Except Err (List (List Char)) := do
  let st ← pass1 lines initState
  match st.instrs.getLast? with
  | none => .error .emptyProgram
  | some last =>
    if checkHalt last.1 then encodeAll st.labels st.instrs
    else .error .missingHalt

end Asm

namespace Vid

/-- `instructions_dict` of `vidhush_bhaiya.py`:
name ↦ (opcode, funct3?, funct7?), in source order. -/
def instructions_dict :
    List (List Char × (List Char × Option (List Char) × Option (List Char))) :=
  [("jal".toList, ("1101111".toList, none, none)),
   ("lui".toList, ("0110111".toList, none, none)),
   ("auipc".toList, ("0010111".toList, none, none)),
   ("beq".toList, ("1100011".toList, some "000".toList, none)),
   ("bne".toList, ("1100011".toList, some "001".toList, none)),
   ("blt".toList, ("1100011".toList, some "100".toList, none)),
   ("bge".toList, ("1100011".toList, some "101".toList, none)),
   ("bltu".toList, ("1100011".toList, some "110".toList, none)),
   ("bgeu".toList, ("1100011".toList, some "111".toList, none)),
   ("sw".toList, ("0100011".toList, some "010".toList, none)),
   ("lw".toList, ("0000011".toList, some "010".toList, none)),
   ("addi".toList, ("0010011".toList, some "000".toList, none)),
   ("sltiu".toList, ("0010011".toList, some "011".toList, none)),
   ("jalr".toList, ("1100111".toList, some "000".toList, none)),
   ("add".toList, ("0110011".toList, some "000".toList, some "0000000".toList)),
   ("sub".toList, ("0110011".toList, some "000".toList, some "0100000".toList)),
   ("sll".toList, ("0110011".toList, some "001".toList, some "0000000".toList)),
   ("slt".toList, ("0110011".toList, some "010".toList, some "0000000".toList)),
   ("sltu".toList, ("0110011".toList, some "011".toList, some "0000000".toList)),
   ("xor".toList, ("0110011".toList, some "100".toList, some "0000000".toList)),
   ("srl".toList, ("0110011".toList, some "101".toList, some "0000000".toList)),
   ("or".toList, ("0110011".toList, some "110".toList, some "0000000".toList)),
   ("and".toList, ("0110011".toList, some "111".toList, some "0000000".toList))]

/-- `registers` of `vidhush_bhaiya.py`: the 32 canonical names (note: no
`fp` alias), each mapped to its 5-bit binary string. -/
def registers : List (List Char × List Char) :=
  [("zero".toList, "00000".toList), ("ra".toList, "00001".toList),
   ("sp".toList, "00010".toList), ("gp".toList, "00011".toList),
   ("tp".toList, "00100".toList), ("t0".toList, "00101".toList),
   ("t1".toList, "00110".toList), ("t2".toList, "00111".toList),
   ("s0".toList, "01000".toList), ("s1".toList, "01001".toList),
   ("a0".toList, "01010".toList), ("a1".toList, "01011".toList),
   ("a2".toList, "01100".toList), ("a3".toList, "01101".toList),
   ("a4".toList, "01110".toList), ("a5".toList, "01111".toList),
   ("a6".toList, "10000".toList), ("a7".toList, "10001".toList),
   ("s2".toList, "10010".toList), ("s3".toList, "10011".toList),
   ("s4".toList, "10100".toList), ("s5".toList, "10101".toList),
   ("s6".toList, "10110".toList), ("s7".toList, "10111".toList),
   ("s8".toList, "11000".toList), ("s9".toList, "11001".toList),
   ("s10".toList, "11010".toList), ("s11".toList, "11011".toList),
   ("t3".toList, "11100".toList), ("t4".toList, "11101".toList),
   ("t5".toList, "11110".toList), ("t6".toList, "11111".toList)]

/-- Python's `'{:0<bits>b}'.format(v if v >= 0 else 2**bits + v)`; every call
site checks the range first, so the adjusted value fits in `bits` bits. -/
def fmtBits (v : Int) (bits : Nat) : List Char :=
  natBits (if v ≥ 0 then v.toNat else ((2 : Int) ^ bits + v).toNat) bits

/-- Immediate of `vidhush_bhaiya.py`'s `jal`/`jalr`/branch branches:
`int(tok)` first, then a label lookup yielding `target - current_address`. -/
def resolveImmV (tok : List Char) (labels : List (List Char × Nat))
    (addr : Nat) : Except Err Int :=
  match parseDecInt tok with
  | some v => .ok v
  | none =>
    match lookupL labels tok with
    | some t => .ok ((t : Int) - (addr : Int))
    | none => .error .invalidImmediate

/-- The `jal` body: range check `[-2^20, 2^20 - 1]`, 21-bit two's-complement
string `imm`, output `imm[0] + imm[10:20] + imm[9] + imm[1:9] + rd + opcode`.
There is no evenness check. -/
def jalCore (rdB : List Char) (imm : Int) : Except Err (List Char) :=
  if imm ≥ 2 ^ 20 ∨ imm < -(2 ^ 20 : Int) then .error .immediateOutOfRange
  else
    let s := fmtBits imm 21
    .ok (s.take 1 ++ (s.drop 10).take 10 ++ (s.drop 9).take 1 ++
         (s.drop 1).take 8 ++ rdB ++ "1101111".toList)

/-- The shared body of `jalr`, `lw`, `addi` and `sltiu`: range check
`[-2^11, 2^11 - 1]`, then `imm + rs1 + funct3 + rd + opcode`. -/
def iTypeCore (opc f3 rdB rs1B : List Char) (imm : Int) :
    Except Err (List Char) :=
  if imm ≥ 2 ^ 11 ∨ imm < -(2 ^ 11 : Int) then .error .immediateOutOfRange
  else .ok (fmtBits imm 12 ++ rs1B ++ f3 ++ rdB ++ opc)

/-- The branch body: range check `[-2^12, 2^12 - 1]`, 13-bit string `imm`,
output `imm[0] + imm[2:8] + rs2 + rs1 + funct3 + imm[8:12] + imm[1] + opcode`
(bit 0 of the immediate is silently dropped; there is no evenness check). -/
def branchCore (f3 rs1B rs2B : List Char) (imm : Int) :
    Except Err (List Char) :=
  if imm ≥ 2 ^ 12 ∨ imm < -(2 ^ 12 : Int) then .error .immediateOutOfRange
  else
    let s := fmtBits imm 13
    .ok (s.take 1 ++ (s.drop 2).take 6 ++ rs2B ++ rs1B ++ f3 ++
         (s.drop 8).take 4 ++ (s.drop 1).take 1 ++ "1100011".toList)

/-- The `sw` body: range check `[-2^11, 2^11 - 1]`, then
`imm[:7] + rs2 + rs1 + funct3 + imm[7:] + opcode`. -/
def swCore (f3 rs1B rs2B : List Char) (imm : Int) : Except Err (List Char) :=
  if imm ≥ 2 ^ 11 ∨ imm < -(2 ^ 11 : Int) then .error .immediateOutOfRange
  else
    let s := fmtBits imm 12
    .ok (s.take 7 ++ rs2B ++ rs1B ++ f3 ++ s.drop 7 ++ "0100011".toList)

/-- `assemble_instruction` of `vidhush_bhaiya.py`: mnemonic lookup in
`instructions_dict`, operand split on `,()`, then the `if/elif` dispatch
chain of the source, ending in the `else` branch that rejects anything not
handled above it (which includes `lui` and `auipc`). -/
def assembleInstruction (mn argStr : List Char) (addr : Nat)
    (labels : List (List Char × Nat)) : Except Err (List Char) :=
  match lookupL instructions_dict mn with
  | none => .error .unknownInstruction
  | some info =>
    let opc := info.1
    let f3 := info.2.1.getD []
    let f7 := info.2.2.getD []
    let args := vSplit argStr
    if mn == "jal".toList then
      match args with
      | [a1, a2] =>
        match lookupL registers a1 with
        | none => .error .invalidRegister
        | some rdB => do
          let imm ← resolveImmV a2 labels addr
          jalCore rdB imm
      | _ => .error .arityError
    else if mn == "jalr".toList then
      match args with
      | [a1, a2, a3] =>
        match lookupL registers a1, lookupL registers a2 with
        | some rdB, some rs1B => do
          let imm ← resolveImmV a3 labels addr
          iTypeCore opc f3 rdB rs1B imm
        | _, _ => .error .invalidRegister
      | _ => .error .arityError
    else if mn == "beq".toList || mn == "bne".toList || mn == "blt".toList ||
            mn == "bge".toList || mn == "bltu".toList || mn == "bgeu".toList then
      match args with
      | [a1, a2, a3] =>
        match lookupL registers a1, lookupL registers a2 with
        | some rs1B, some rs2B => do
          let imm ← resolveImmV a3 labels addr
          branchCore f3 rs1B rs2B imm
        | _, _ => .error .invalidRegister
      | _ => .error .arityError
    else if mn == "lw".toList then
      match args with
      | [a1, a2, a3] =>
        match lookupL registers a1 with
        | none => .error .invalidRegister
        | some rdB =>
          match parseDecInt a2 with
          | none => .error .invalidImmediate
          | some imm =>
            match lookupL registers a3 with
            | none => .error .invalidRegister
            | some rs1B => iTypeCore opc f3 rdB rs1B imm
      | _ => .error .arityError
    else if mn == "sw".toList then
      match args with
      | [a1, a2, a3] =>
        match lookupL registers a1 with
        | none => .error .invalidRegister
        | some rs2B =>
          match parseDecInt a2 with
          | none => .error .invalidImmediate
          | some imm =>
            match lookupL registers a3 with
            | none => .error .invalidRegister
            | some rs1B => swCore f3 rs1B rs2B imm
      | _ => .error .arityError
    else if mn == "addi".toList || mn == "sltiu".toList then
      match args with
      | [a1, a2, a3] =>
        match lookupL registers a1, lookupL registers a2 with
        | some rdB, some rs1B =>
          match parseDecInt a3 with
          | none => .error .invalidImmediate
          | some imm => iTypeCore opc f3 rdB rs1B imm
        | _, _ => .error .invalidRegister
      | _ => .error .arityError
    else if mn == "add".toList || mn == "sub".toList || mn == "sll".toList ||
            mn == "slt".toList || mn == "sltu".toList || mn == "xor".toList ||
            mn == "srl".toList || mn == "or".toList || mn == "and".toList then
      match args with
      | [a1, a2, a3] =>
        match lookupL registers a1, lookupL registers a2, lookupL registers a3 with
        | some rdB, some rs1B, some rs2B =>
          .ok (f7 ++ rs2B ++ rs1B ++ f3 ++ rdB ++ opc)
        | _, _, _ => .error .invalidRegister
      | _ => .error .arityError
    else .error .unknownInstruction

/-- The virtual-halt detection of `vidhush_bhaiya.py`'s `__init__`: it looks
for a parsed instruction that is literally `["beq", "zero,zero,0"]` anywhere
in the program (not necessarily last, and the operand text must contain no
spaces). -/
def haltFound (asm1 : List (List Char × List Char)) : Bool :=
  asm1.any (fun p => p.1 == "beq".toList && p.2 == "zero,zero,0".toList)

end Vid

/-- The J-format encoding as claim C2 states it: odd immediates are rejected
with `MisalignedJump`, the immediate must lie in the 21-bit signed range, and
the immediate is first shifted right by one before the remaining 20 bits are
packed in the order imm[20] · imm[10:1] · imm[11] · imm[19:12], followed by
rd(5) and opcode(7).  For `s = to_binary(imm >> 1, 20)`, bit imm[20] of the
original immediate is `s[0]`, bits imm[10:1] are `s[10:20]`, bit imm[11] is
`s[9]` and bits imm[19:12] are `s[1:9]`. -/
def encodeJClaimed (rd : Nat) (imm : Int) : Except Err (List Char) :=
  if imm % 2 ≠ 0 then .error .misalignedJump
  else if imm < -(2 ^ 20 : Int) ∨ (2 ^ 20 : Int) - 1 < imm then
    .error .immediateOutOfRange
  else
    match toBinary (imm / 2) 20, toBinary rd 5 with
    | some s, some rdB =>
      .ok (s.take 1 ++ s.drop 10 ++ (s.drop 9).take 1 ++ (s.drop 1).take 8 ++
           rdB ++ "1101111".toList)
    | _, _ => .error .immediateOutOfRange

/-- The exact virtual-halt idiom as claim C3 states it: the mnemonic is `beq`
and the three comma-separated operands, each stripped of whitespace, are
`zero`, `zero`, `0`. -/
def isHaltIdiomC3 (s : List Char) : Bool :=
  match splitFirstWs s with
  | none => false
  | some p =>
    p.1 == "beq".toList &&
      (splitOnComma p.2).map pyStrip == ["zero".toList, "zero".toList, "0".toList]

/-- Description of `Asm.checkHalt` used by the amended claim C3: the text
decomposes as a whitespace-free part (starting with `beq`), a non-empty
whitespace run, and a remainder with a non-whitespace first character whose
non-space characters read `zero,zero,0`. -/
def haltCond (s : List Char) : Prop :=
  "beq".toList.isPrefixOf s = true ∧
  ∃ a w c r, s = a ++ w ++ (c :: r) ∧ (∀ x ∈ a, isWs x = false) ∧
    w ≠ [] ∧ (∀ x ∈ w, isWs x = true) ∧ isWs c = false ∧
    (c :: r).filter (fun x => !(x == ' ')) = "zero,zero,0".toList

namespace Asm

/-- Whether a source line, when processed by the first pass, binds the label
`name` (it has a colon and its stripped label part is `name`). -/
def bindsName (l name : List Char) : Bool :=
  hasColon (pyStrip l) && (pyStrip (splitColon (pyStrip l)).1 == name)

/-- The condition under which the first pass rejects a line: it is non-blank,
contains a colon, and its stripped label part does not start with a letter.
This depends only on the line's text, never on the accumulated state. -/
def lineBadLabel (l : List Char) : Bool :=
  !(pyStrip l).isEmpty && hasColon (pyStrip l) &&
    !headIsAlpha (pyStrip (splitColon (pyStrip l)).1)

/-- First-pass invariant: the running address is four times the number of
emitted instructions, and the i-th emitted instruction sits at address 4·i. -/
def P1Inv (st : P1State) : Prop :=
  st.addr = 4 * st.instrs.length ∧
  ∀ i (h : i < st.instrs.length), (st.instrs[i]).2 = 4 * i

end Asm

/-! ## Arithmetic facts about the binary-string primitives -/

theorem natBits_length (n b : Nat) : (natBits n b).length = b := by
  induction b generalizing n with
  | zero => rfl
  | succ b ih => simp [natBits, ih]

theorem bitsVal_append_bit (l : List Char) (c : Char) :
    bitsVal (l ++ [c]) = 2 * bitsVal l + (if c = '1' then 1 else 0) := by
  unfold bitsVal
  rw [List.foldl_append]
  rfl

theorem bitsVal_natBits (n b : Nat) (h : n < 2 ^ b) :
    bitsVal (natBits n b) = n := by
  induction b generalizing n with
  | zero =>
    simp only [natBits, bitsVal, List.foldl_nil]
    simp only [pow_zero] at h
    omega
  | succ b ih =>
    have hpow : 2 ^ (b + 1) = 2 * 2 ^ b := by ring
    rw [hpow] at h
    have h2 : n / 2 < 2 ^ b := by omega
    show bitsVal (natBits (n / 2) b ++ [if n % 2 = 1 then '1' else '0']) = n
    rw [bitsVal_append_bit, ih _ h2]
    rcases Nat.mod_two_eq_zero_or_one n with h0 | h0 <;> rw [h0] <;> simp <;> omega

/-- Claim C4: two's-complement round trip.  For the bit widths used (12, 13,
20, 21) and every `n` in the signed range, `toBinary n b` succeeds with a
`b`-character string whose signed reinterpretation is `n` again; for negative
`n` the packed value is `n + 2^b`; and `toBinary` fails whenever the adjusted
value lies outside `[0, 2^b)`. -/
theorem c4_to_binary_roundtrip (b : Nat)
    (hb : b = 12 ∨ b = 13 ∨ b = 20 ∨ b = 21) :
    (∀ n : Int, -(2 ^ (b - 1) : Int) ≤ n → n ≤ (2 ^ (b - 1) : Int) - 1 →
      ∃ s, toBinary n b = some s ∧ s.length = b ∧ signedOfBits s = n ∧
        (n < 0 → (bitsVal s : Int) = n + 2 ^ b)) ∧
    (∀ n : Int,
      ((if n < 0 then (2 ^ b : Int) + n else n) < 0 ∨
       (if n < 0 then (2 ^ b : Int) + n else n) ≥ 2 ^ b) →
      toBinary n b = none) := by
  have hb1 : 1 ≤ b := by rcases hb with rfl | rfl | rfl | rfl <;> omega
  obtain ⟨p, rfl⟩ : ∃ p, b = p + 1 := ⟨b - 1, by omega⟩
  have hcast : ((2 ^ p : Nat) : Int) = 2 ^ p := by push_cast; ring
  have hcast2 : ((2 ^ (p + 1) : Nat) : Int) = 2 ^ (p + 1) := by push_cast; ring
  have hpow : (2 ^ (p + 1) : Int) = 2 * 2 ^ p := by ring
  have hpowN : (2 : Nat) ^ (p + 1) = 2 * 2 ^ p := by ring
  have hnn : (0 : Int) ≤ 2 ^ p := by positivity
  constructor
  · intro n h1 h2
    have hred : p + 1 - 1 = p := rfl
    rw [hred] at h1 h2
    by_cases hn : n < 0
    · have hlt : ((2 ^ (p + 1) : Int) + n).toNat < 2 ^ (p + 1) := by omega
      refine ⟨natBits ((2 ^ (p + 1) : Int) + n).toNat (p + 1), ?_, ?_, ?_, ?_⟩
      · unfold toBinary
        rw [if_pos hn, if_neg (by omega)]
      · exact natBits_length _ _
      · unfold signedOfBits
        rw [natBits_length, bitsVal_natBits _ _ hlt, if_neg (by omega)]
        omega
      · intro _
        rw [bitsVal_natBits _ _ hlt]
        omega
    · have hlt : n.toNat < 2 ^ (p + 1) := by omega
      refine ⟨natBits n.toNat (p + 1), ?_, ?_, ?_, ?_⟩
      · unfold toBinary
        rw [if_neg hn, if_neg (by omega)]
      · exact natBits_length _ _
      · unfold signedOfBits
        rw [natBits_length, bitsVal_natBits _ _ hlt, if_pos (by omega)]
        omega
      · intro h
        exact absurd h hn
  · intro n hcond
    unfold toBinary
    rw [if_pos (Or.symm hcond)]

/-- Witness for C4: the round trip at b = 12, n = -5. -/
theorem c4_to_binary_roundtrip_witness :
    ∃ s, toBinary (-5) 12 = some s ∧ s.length = 12 ∧ signedOfBits s = -5 ∧
      ((-5 : Int) < 0 → (bitsVal s : Int) = -5 + 2 ^ 12) :=
  (c4_to_binary_roundtrip 12 (Or.inl rfl)).1 (-5) (by decide) (by decide)

/-! ## Concrete end-to-end facts -/

/-- Claim C1: on the two-line example program, the first pass binds `start`
to address 0, `addi a0, zero, 5` encodes to
`imm=000000000101 · rs1=00000 · funct3=000 · rd=01010 · opcode=0010011`
(the word `00000000010100000000010100010011`), and the self-branch
`beq zero, zero, 0` encodes with every branch-immediate bit
(positions 0, 1–6, 20–23 and 24 of the word) equal to zero. -/
theorem c1_example :
    Asm.pass1 ["start: addi a0, zero, 5".toList, "beq zero, zero, 0".toList]
        Asm.initState =
      .ok ⟨8, [("addi a0, zero, 5".toList, 0), ("beq zero, zero, 0".toList, 4)],
           [("start".toList, 0)]⟩ ∧
    lookupL [("start".toList, 0)] ("start".toList) = some 0 ∧
    Asm.assembleProgram
        ["start: addi a0, zero, 5".toList, "beq zero, zero, 0".toList] =
      .ok ["00000000010100000000010100010011".toList,
           "00000000000000000000000001100011".toList] ∧
    "00000000010100000000010100010011".toList.take 12 = "000000000101".toList ∧
    ("00000000010100000000010100010011".toList.drop 12).take 5 = "00000".toList ∧
    ("00000000010100000000010100010011".toList.drop 17).take 3 = "000".toList ∧
    ("00000000010100000000010100010011".toList.drop 20).take 5 = "01010".toList ∧
    "00000000010100000000010100010011".toList.drop 25 = "0010011".toList ∧
    "00000000000000000000000001100011".toList.take 7 = "0000000".toList ∧
    ("00000000000000000000000001100011".toList.drop 20).take 5 = "00000".toList :=
  ⟨rfl, rfl, rfl, rfl, rfl, rfl, rfl, rfl, rfl, rfl⟩

/-- Claim C2 (code bug): `encode_J_type` of `assembler.py` (and the identical
`_encode_J` of `final_code.py`) does perform the evenness check
(`MisalignedJump` on 3) and accepts exactly the 21-bit signed range
(`2^20` rejected, `-2^20` accepted), but it packs `to_binary(imm, 20)` of the
*unshifted* immediate, so at the even immediate 2 its output differs from the
shift-then-pack encoding the claim describes (`encodeJClaimed`); the encoded
imm[10:1] field reads `0000000010` instead of `0000000001`.
`vidhush_bhaiya.py` packs the 21-bit immediate as the claim describes, but
performs no evenness check at all: the odd `jal ra, 3` is accepted and bit 0
is silently dropped. -/
theorem c2_jal_encoding_bug :
    Asm.encode_J_type ("jal".toList) 1 2 =
      .ok "00000000010000000000000011101111".toList ∧
    encodeJClaimed 1 2 = .ok "00000000001000000000000011101111".toList ∧
    "00000000010000000000000011101111".toList ≠
      "00000000001000000000000011101111".toList ∧
    Asm.encode_J_type ("jal".toList) 1 3 = .error .misalignedJump ∧
    Asm.encode_J_type ("jal".toList) 1 ((2 : Int) ^ 20) =
      .error .immediateOutOfRange ∧
    Asm.encode_J_type ("jal".toList) 1 (-((2 : Int) ^ 20)) =
      .ok "00000000000000000000000011101111".toList ∧
    Vid.assembleInstruction ("jal".toList) ("ra, 3".toList) 0 [] =
      .ok "00000000001000000000000011101111".toList :=
  ⟨rfl, rfl, by decide, rfl, rfl, rfl, rfl⟩

/-- Counterexample to claim C3 as stated: the program text
`beqx zero,zero,0` is not the virtual-halt idiom (its mnemonic is `beqx`,
not `beq`), yet the halt check of `assembler.py` accepts it, because the code
only tests `startswith("beq")`; a run ending in this instruction therefore
does not fail with `MissingHalt` (it fails later, in encoding, with
`UnknownInstruction`). -/
theorem c3_counterexample :
    Asm.checkHalt ("beqx zero,zero,0".toList) = true ∧
    isHaltIdiomC3 ("beqx zero,zero,0".toList) = false :=
  ⟨rfl, rfl⟩

/-- Counterexample to claim C5 as stated: in the program
`x: addi a0, zero, 1` / `x: beq zero,zero,0`, the label `x` has a definition
that immediately precedes the 0-th emitted instruction (same line, address 0),
yet the label table binds `x` to 4, not to `4·0 = 0` — a duplicated label is
silently rebound to its last definition. -/
theorem c5_counterexample :
    Asm.pass1 ["x: addi a0, zero, 1".toList, "x: beq zero,zero,0".toList]
        Asm.initState =
      .ok ⟨8, [("addi a0, zero, 1".toList, 0), ("beq zero,zero,0".toList, 4)],
           [("x".toList, 4), ("x".toList, 0)]⟩ ∧
    lookupL [("x".toList, 4), ("x".toList, 0)] ("x".toList) = some 4 ∧
    lookupL [("x".toList, 4), ("x".toList, 0)] ("x".toList) ≠ some 0 :=
  ⟨rfl, rfl, by decide⟩

/-- Claim C6 (code bug): `lui` and `auipc` are listed in
`vidhush_bhaiya.py`'s own `instructions_dict`, yet its dispatch chain has no
U-format branch, so both fall through to the final `else` and are rejected as
unknown instructions; `assembler.py`/`final_code.py` do not know them at all.
No file encodes the U format. -/
theorem c6_u_format_missing :
    (lookupL Vid.instructions_dict ("lui".toList)).isSome = true ∧
    (lookupL Vid.instructions_dict ("auipc".toList)).isSome = true ∧
    Vid.assembleInstruction ("lui".toList) ("a0, 5".toList) 0 [] =
      .error .unknownInstruction ∧
    Vid.assembleInstruction ("auipc".toList) ("a0, 5".toList) 0 [] =
      .error .unknownInstruction ∧
    Asm.processInstruction ("lui a0, 5".toList) 0 [] =
      .error .unknownInstruction :=
  ⟨rfl, rfl, rfl, rfl, rfl⟩

/-- Claim C8 (code bug): the odd branch immediate in `beq a0, a1, 3` is
rejected with `MisalignedBranch` by `assembler.py` (and the identical
`_encode_B` of `final_code.py`), as the claim states, but
`vidhush_bhaiya.py`'s branch encoder has no evenness check: it accepts the
instruction and silently drops bit 0 of the immediate (the emitted word
encodes offset 2). -/
theorem c8_branch_alignment_bug :
    Asm.processInstruction ("beq a0, a1, 3".toList) 0 [] =
      .error .misalignedBranch ∧
    Asm.encode_B_type ("beq".toList) 10 11 3 = .error .misalignedBranch ∧
    Vid.assembleInstruction ("beq".toList) ("a0, a1, 3".toList) 0 [] =
      .ok "00000000101101010000000101100011".toList :=
  ⟨rfl, rfl, rfl⟩

/-! ## Association-list lookup facts -/

theorem lookupL_some_mem {α : Type} (l : List (List Char × α))
    (k : List Char) (v : α) (h : lookupL l k = some v) : (k, v) ∈ l := by
  induction l with
  | nil => exact absurd h (by simp [lookupL])
  | cons p ps ih =>
    unfold lookupL at h
    by_cases hk : (p.1 == k) = true
    · rw [if_pos hk] at h
      have h1 : p.1 = k := beq_iff_eq.mp hk
      have h2 : p.2 = v := by injection h
      subst h1
      subst h2
      exact List.mem_cons_self _ _
    · rw [if_neg hk] at h
      exact List.mem_cons_of_mem _ (ih h)

theorem lookupL_mem_some {α : Type} (l : List (List Char × α))
    (k : List Char) (v : α) (hnd : (l.map Prod.fst).Nodup)
    (h : (k, v) ∈ l) : lookupL l k = some v := by
  induction l with
  | nil => exact absurd h (by simp)
  | cons p ps ih =>
    rw [List.map_cons, List.nodup_cons] at hnd
    rcases List.mem_cons.mp h with h0 | hm
    · unfold lookupL
      rw [← h0]
      rw [if_pos (by exact beq_self_eq_true k)]
    · unfold lookupL
      have hk : ¬ (p.1 == k) = true := by
        intro hk
        have h1 : p.1 = k := beq_iff_eq.mp hk
        exact hnd.1 (h1 ▸ List.mem_map.mpr ⟨(k, v), hm, rfl⟩)
      rw [if_neg hk]
      exact ih hnd.2 hm

theorem lookupL_none_iff {α : Type} (l : List (List Char × α)) (k : List Char) :
    lookupL l k = none ↔ k ∉ l.map Prod.fst := by
  induction l with
  | nil => simp [lookupL]
  | cons p ps ih =>
    rw [List.map_cons]
    unfold lookupL
    by_cases hk : (p.1 == k) = true
    · have h1 : p.1 = k := beq_iff_eq.mp hk
      rw [if_pos hk]
      constructor
      · intro h
        exact absurd h (by simp)
      · intro h
        exact absurd (List.mem_cons.mpr (Or.inl h1.symm)) h
    · have h1 : p.1 ≠ k := fun he => hk (beq_iff_eq.mpr he)
      rw [if_neg hk, ih]
      constructor
      · intro h hm
        rcases List.mem_cons.mp hm with he | hm2
        · exact h1 he.symm
        · exact h hm2
      · intro h hm
        exact h (List.mem_cons_of_mem _ hm)

/-- Amended claim C9: in `assembler.py` and `final_code.py`, register
resolution accepts exactly the 32 canonical names plus the alias `fp`
(33 table entries, each mapped to its 5-bit index 0–31, with `fp ↦ 8 = s0`),
and every other (stripped) token fails with `InvalidRegister`.
`vidhush_bhaiya.py`, however, accepts only the 32 canonical names: its table
has no `fp` entry, so `fp` is rejected there. -/
theorem c9_registers_amended :
    (∀ s v, lookupL Asm.registers s = some v ↔ (s, v) ∈ Asm.registers) ∧
    (∀ s, lookupL Asm.registers s = none ↔ s ∉ Asm.registers.map Prod.fst) ∧
    (∀ s, Asm.parse_register s = .error .invalidRegister ↔
      pyStrip s ∉ Asm.registers.map Prod.fst) ∧
    Asm.registers.length = 33 ∧
    Asm.registers.all (fun p => decide (p.2 < 32)) = true ∧
    lookupL Asm.registers ("fp".toList) = some 8 ∧
    lookupL Asm.registers ("s0".toList) = some 8 ∧
    lookupL Vid.registers ("fp".toList) = none ∧
    Vid.registers.length = 32 ∧
    (∀ s, lookupL Vid.registers s = none ↔ s ∉ Vid.registers.map Prod.fst) := by
  have hnd : (Asm.registers.map Prod.fst).Nodup := by decide
  refine ⟨?_, ?_, ?_, rfl, rfl, rfl, rfl, rfl, rfl, ?_⟩
  · intro s v
    exact ⟨lookupL_some_mem _ _ _, lookupL_mem_some _ _ _ hnd⟩
  · intro s
    exact lookupL_none_iff _ _
  · intro s
    rw [← lookupL_none_iff]
    cases h : lookupL Asm.registers (pyStrip s) with
    | none => simp [Asm.parse_register, h]
    | some v => simp [Asm.parse_register, h]
  · intro s
    exact lookupL_none_iff _ _

/-! ## Whitespace-splitting facts for the halt check -/

theorem takeWhile_append_all {p : Char → Bool} (a y : List Char)
    (h : ∀ x ∈ a, p x = true) : (a ++ y).takeWhile p = a ++ y.takeWhile p := by
  induction a with
  | nil => rfl
  | cons c cs ih =>
    rw [List.cons_append, List.takeWhile_cons,
        if_pos (h c (List.mem_cons_self _ _)), List.cons_append,
        ih (fun x hx => h x (List.mem_cons_of_mem _ hx))]

theorem dropWhile_append_all {p : Char → Bool} (a y : List Char)
    (h : ∀ x ∈ a, p x = true) : (a ++ y).dropWhile p = y.dropWhile p := by
  induction a with
  | nil => rfl
  | cons c cs ih =>
    rw [List.cons_append, List.dropWhile_cons,
        if_pos (h c (List.mem_cons_self _ _)),
        ih (fun x hx => h x (List.mem_cons_of_mem _ hx))]

theorem dropWhile_head_false {p : Char → Bool} (l : List Char) (c : Char)
    (r : List Char) (h : l.dropWhile p = c :: r) : p c = false := by
  induction l with
  | nil => exact absurd h (by simp)
  | cons a as ih =>
    rw [List.dropWhile_cons] at h
    by_cases ha : p a = true
    · rw [if_pos ha] at h
      exact ih h
    · rw [if_neg ha] at h
      injection h with h1 _
      subst h1
      cases hpa : p a with
      | false => rfl
      | true => exact absurd hpa ha

theorem dropWhile_cons_neg {p : Char → Bool} (c : Char) (r : List Char)
    (h : p c = false) : (c :: r).dropWhile p = c :: r := by
  rw [List.dropWhile_cons, if_neg (by rw [h]; exact Bool.false_ne_true)]

theorem takeWhile_cons_neg {p : Char → Bool} (c : Char) (r : List Char)
    (h : p c = false) : (c :: r).takeWhile p = [] := by
  rw [List.takeWhile_cons, if_neg (by rw [h]; exact Bool.false_ne_true)]

/-- Amended claim C3: the halt check of `assembler.py` passes exactly when
the last instruction's text splits into a whitespace-free part that starts
with the three characters `beq` (a prefix test: mnemonics such as `beqx`
also pass), a non-empty whitespace run, and a remainder whose non-space
characters read `zero,zero,0`; otherwise the run fails with `MissingHalt`.
The canonical idiom `beq zero, zero, 0` passes.  (`vidhush_bhaiya.py`
deviates further: it searches the whole program for an instruction whose
mnemonic is `beq` and whose raw operand text is `zero,zero,0` with no
spaces, so the canonically spaced idiom is not found and the match need not
be the last instruction.) -/
theorem c3_halt_check_amended :
    (∀ s : List Char, Asm.checkHalt s = true ↔ haltCond s) ∧
    Asm.checkHalt ("beq zero, zero, 0".toList) = true ∧
    Asm.checkHalt ("beq zero,zero,0".toList) = true ∧
    Vid.haltFound [("beq".toList, "zero, zero, 0".toList)] = false ∧
    Vid.haltFound [("beq".toList, "zero,zero,0".toList),
                   ("addi".toList, "a0, zero, 5".toList)] = true := by
  refine ⟨?_, rfl, rfl, rfl, rfl⟩
  intro s
  constructor
  · intro h
    unfold Asm.checkHalt at h
    rw [Bool.and_eq_true] at h
    obtain ⟨hpre, hrest⟩ := h
    cases hsp : splitFirstWs s with
    | none =>
      rw [hsp] at hrest
      exact absurd hrest (by simp)
    | some pr =>
      rw [hsp] at hrest
      unfold splitFirstWs at hsp
      by_cases he : ((s.dropWhile (fun c => !isWs c)).dropWhile isWs).isEmpty = true
      · rw [if_pos he] at hsp
        exact absurd hsp (by simp)
      · rw [if_neg he] at hsp
        injection hsp with hsp
        cases hr : (s.dropWhile (fun c => !isWs c)).dropWhile isWs with
        | nil =>
          rw [hr] at he
          exact absurd rfl he
        | cons c r =>
          refine ⟨hpre, s.takeWhile (fun c => !isWs c),
                  (s.dropWhile (fun c => !isWs c)).takeWhile isWs, c, r,
                  ?_, ?_, ?_, ?_, ?_, ?_⟩
          · have h1 : s.takeWhile (fun c => !isWs c) ++
                s.dropWhile (fun c => !isWs c) = s :=
              List.takeWhile_append_dropWhile _ _
            have h2 : (s.dropWhile (fun c => !isWs c)).takeWhile isWs ++
                (s.dropWhile (fun c => !isWs c)).dropWhile isWs =
                s.dropWhile (fun c => !isWs c) :=
              List.takeWhile_append_dropWhile _ _
            rw [hr] at h2
            rw [List.append_assoc, h2, h1]
          · intro x hx
            have hx2 := List.mem_takeWhile_imp hx
            simpa using hx2
          · cases hd : s.dropWhile (fun c => !isWs c) with
            | nil =>
              rw [hd] at hr
              exact absurd hr (by simp)
            | cons d0 d' =>
              have hws : isWs d0 = true := by
                have := dropWhile_head_false _ _ _ hd
                simpa using this
              rw [List.takeWhile_cons, if_pos hws]
              simp
          · intro x hx
            exact List.mem_takeWhile_imp hx
          · exact dropWhile_head_false _ _ _ hr
          · subst hsp
            rw [hr] at hrest
            exact eq_of_beq hrest
  · rintro ⟨hpre, a, w, c, r, hs, hA, hw, hW, hc, hf⟩
    obtain ⟨w0, w', rfl⟩ : ∃ w0 w', w = w0 :: w' := by
      cases w with
      | nil => exact absurd rfl hw
      | cons w0 w' => exact ⟨w0, w', rfl⟩
    have hw0 : isWs w0 = true := hW w0 (List.mem_cons_self _ _)
    have hAall : ∀ x ∈ a, (!isWs x) = true := by
      intro x hx
      rw [hA x hx]
      rfl
    have hd : s.dropWhile (fun x => !isWs x) = w0 :: (w' ++ c :: r) := by
      rw [hs, List.append_assoc, dropWhile_append_all _ _ hAall,
          List.cons_append, dropWhile_cons_neg _ _ (by rw [hw0]; rfl)]
    have htk : s.takeWhile (fun x => !isWs x) = a := by
      rw [hs, List.append_assoc, takeWhile_append_all _ _ hAall,
          List.cons_append, takeWhile_cons_neg _ _ (by rw [hw0]; rfl),
          List.append_nil]
    have hd2 : (w0 :: (w' ++ c :: r)).dropWhile isWs = c :: r := by
      rw [← List.cons_append, dropWhile_append_all _ _ (fun x hx => hW x hx),
          dropWhile_cons_neg _ _ hc]
    unfold Asm.checkHalt
    rw [Bool.and_eq_true]
    refine ⟨hpre, ?_⟩
    unfold splitFirstWs
    rw [hd, hd2, htk]
    rw [if_neg (by simp)]
    show (List.filter (fun x => !(x == ' ')) (c :: r) ==
      "zero,zero,0".toList) = true
    rw [hf]
    exact beq_self_eq_true _

theorem toBinary_some_of_range (n : Int) (b : Nat)
    (h1 : -(2 ^ b : Int) ≤ n) (h2 : n < 2 ^ b) :
    ∃ s, toBinary n b = some s := by
  have hnn : (0 : Int) ≤ 2 ^ b := by positivity
  unfold toBinary
  by_cases hn : n < 0
  · rw [if_pos hn, if_neg (by omega)]
    exact ⟨_, rfl⟩
  · rw [if_neg hn, if_neg (by omega)]
    exact ⟨_, rfl⟩

theorem toBinary_natCast (r b : Nat) (h : r < 2 ^ b) :
    toBinary (r : Int) b = some (natBits r b) := by
  have hc : ((2 ^ b : Nat) : Int) = 2 ^ b := by push_cast; ring
  have hr : ¬ ((r : Int) < 0) := by omega
  unfold toBinary
  rw [if_neg hr, if_neg (by omega)]
  simp

/-- Claim C7: the I-format immediate is range-checked and never truncated:
every addi immediate in [-2048, 2047] passes the range check (in
`assembler.py`'s `encode_I_type` and in `vidhush_bhaiya.py`'s addi body),
while immediate 4096 fails with `ImmediateOutOfRange` in both. -/
theorem c7_addi_range (rd rs1 : Nat) (rdB rs1B : List Char)
    (hrd : rd < 32) (hrs1 : rs1 < 32) :
    (∀ imm : Int, -2048 ≤ imm → imm ≤ 2047 →
      ∃ s, Asm.encode_I_type ("addi".toList) rd rs1 imm = .ok s) ∧
    Asm.encode_I_type ("addi".toList) rd rs1 4096 =
      .error .immediateOutOfRange ∧
    (∀ imm : Int, -2048 ≤ imm → imm ≤ 2047 →
      ∃ s, Vid.iTypeCore ("0010011".toList) ("000".toList) rdB rs1B imm = .ok s) ∧
    Vid.iTypeCore ("0010011".toList) ("000".toList) rdB rs1B 4096 =
      .error .immediateOutOfRange := by
  have h12 : ((2 : Int) ^ 12) = 4096 := by norm_num
  have h11 : ((2 : Int) ^ 11) = 2048 := by norm_num
  have h5 : ((2 : Nat) ^ 5) = 32 := by norm_num
  refine ⟨?_, ?_, ?_, ?_⟩
  · intro imm hl hr
    obtain ⟨ib, hib⟩ := toBinary_some_of_range imm 12 (by omega) (by omega)
    unfold Asm.encode_I_type
    rw [show lookupL Asm.I_instructions ("addi".toList) =
          some ("0010011".toList, "000".toList) from rfl,
        hib, toBinary_natCast rd 5 (by omega), toBinary_natCast rs1 5 (by omega)]
    exact ⟨_, rfl⟩
  · unfold Asm.encode_I_type
    rw [show lookupL Asm.I_instructions ("addi".toList) =
          some ("0010011".toList, "000".toList) from rfl,
        show toBinary (4096 : Int) 12 = none from rfl]
  · intro imm hl hr
    unfold Vid.iTypeCore
    rw [if_neg (by omega)]
    exact ⟨_, rfl⟩
  · unfold Vid.iTypeCore
    rw [if_pos (by omega)]

/-- Witness for C7 at rd = 10 (`a0`), rs1 = 0 (`zero`), immediate -2048. -/
theorem c7_addi_range_witness :
    (∃ s, Asm.encode_I_type ("addi".toList) 10 0 (-2048) = .ok s) ∧
    Asm.encode_I_type ("addi".toList) 10 0 4096 =
      .error .immediateOutOfRange := by
  have h := c7_addi_range 10 0 ("01010".toList) ("00000".toList)
    (by decide) (by decide)
  exact ⟨h.1 (-2048) (by decide) (by decide), h.2.1⟩

/-! ## First-pass machinery: addresses, label bindings, duplicates -/

theorem getElem_append_first {α : Type} (l t : List α) (i : Nat)
    (h1 : i < l.length) (h : i < (l ++ t).length) : (l ++ t)[i] = l[i] := by
  induction l generalizing i with
  | nil => exact absurd h1 (by simp)
  | cons a as ih =>
    cases i with
    | zero => rfl
    | succ j =>
      have h1b : j < as.length := by
        simp only [List.length_cons] at h1
        omega
      have hb : j < (as ++ t).length := by
        simp only [List.cons_append, List.length_cons] at h
        omega
      exact ih j h1b hb

theorem getElem_append_mid {α : Type} (l : List α) (x : α) (t : List α)
    (h : l.length < (l ++ x :: t).length) : (l ++ x :: t)[l.length] = x := by
  induction l with
  | nil => rfl
  | cons a as ih =>
    have hb : as.length < (as ++ x :: t).length := by
      simp only [List.cons_append, List.length_cons] at h
      omega
    exact ih hb

theorem lookupL_cons_ne {α : Type} (p : List Char × α) (ps : List (List Char × α))
    (k : List Char) (h : (p.1 == k) = false) :
    lookupL (p :: ps) k = lookupL ps k := by
  show (if (p.1 == k) = true then some p.2 else lookupL ps k) = lookupL ps k
  rw [if_neg (by rw [h]; exact Bool.false_ne_true)]

theorem pass1_append_ok (xs ys : List (List Char)) (st st1 : Asm.P1State)
    (h : Asm.pass1 xs st = .ok st1) :
    Asm.pass1 (xs ++ ys) st = Asm.pass1 ys st1 := by
  induction xs generalizing st with
  | nil =>
    unfold Asm.pass1 at h
    injection h with h
    rw [List.nil_append, h]
  | cons l ls ih =>
    rw [List.cons_append]
    unfold Asm.pass1 at h
    cases hl : Asm.pass1Line st l with
    | error e =>
      rw [hl] at h
      exact Except.noConfusion h
    | ok st2 =>
      rw [hl] at h
      have hstep : Asm.pass1 (l :: (ls ++ ys)) st = Asm.pass1 (ls ++ ys) st2 := by
        show (match Asm.pass1Line st l with
              | Except.error e => Except.error e
              | Except.ok st' => Asm.pass1 (ls ++ ys) st') =
          Asm.pass1 (ls ++ ys) st2
        rw [hl]
      rw [hstep]
      exact ih st2 h

theorem pass1Line_inv (st st' : Asm.P1State) (l : List Char)
    (h : Asm.pass1Line st l = .ok st') (hI : Asm.P1Inv st) : Asm.P1Inv st' := by
  have happ : ∀ (x : List Char) (lb : List (List Char × Nat)),
      Asm.P1Inv ⟨st.addr + 4, st.instrs ++ [(x, st.addr)], lb⟩ := by
    intro x lb
    obtain ⟨h1, h2⟩ := hI
    constructor
    · show st.addr + 4 = 4 * (st.instrs ++ [(x, st.addr)]).length
      rw [List.length_append]
      simp only [List.length_cons, List.length_nil]
      omega
    · intro i hi
      show ((st.instrs ++ [(x, st.addr)])[i]).2 = 4 * i
      rw [List.length_append] at hi
      simp only [List.length_cons, List.length_nil] at hi
      by_cases hlt : i < st.instrs.length
      · rw [getElem_append_first _ _ _ hlt]
        exact h2 i hlt
      · have hi2 : i = st.instrs.length := by omega
        subst hi2
        rw [getElem_append_mid]
        · exact h1
  unfold Asm.pass1Line at h
  by_cases h1 : pyStrip l = []
  · rw [if_pos h1] at h
    injection h with h
    rw [← h]
    exact hI
  · rw [if_neg h1] at h
    by_cases h2 : hasColon (pyStrip l) = true
    · rw [if_pos h2] at h
      by_cases h3 : headIsAlpha (pyStrip (splitColon (pyStrip l)).1) = true
      · rw [if_pos h3] at h
        by_cases h4 : pyStrip (splitColon (pyStrip l)).2 = []
        · rw [if_pos h4] at h
          injection h with h
          rw [← h]
          exact ⟨hI.1, hI.2⟩
        · rw [if_neg h4] at h
          injection h with h
          rw [← h]
          exact happ _ _
      · rw [if_neg h3] at h
        exact Except.noConfusion h
    · rw [if_neg h2] at h
      injection h with h
      rw [← h]
      exact happ _ _

theorem pass1_inv (ls : List (List Char)) (st st' : Asm.P1State)
    (h : Asm.pass1 ls st = .ok st') (hI : Asm.P1Inv st) : Asm.P1Inv st' := by
  induction ls generalizing st with
  | nil =>
    unfold Asm.pass1 at h
    injection h with h
    rw [← h]
    exact hI
  | cons l ls ih =>
    unfold Asm.pass1 at h
    cases hl : Asm.pass1Line st l with
    | error e =>
      rw [hl] at h
      exact Except.noConfusion h
    | ok st2 =>
      rw [hl] at h
      exact ih st2 h (pass1Line_inv _ _ _ hl hI)

theorem pass1Line_lookup (st st' : Asm.P1State) (l name : List Char)
    (h : Asm.pass1Line st l = .ok st')
    (hb : Asm.bindsName l name = false) :
    lookupL st'.labels name = lookupL st.labels name := by
  unfold Asm.pass1Line at h
  by_cases h1 : pyStrip l = []
  · rw [if_pos h1] at h
    injection h with h
    rw [← h]
  · rw [if_neg h1] at h
    by_cases h2 : hasColon (pyStrip l) = true
    · rw [if_pos h2] at h
      have hne : ((pyStrip (splitColon (pyStrip l)).1, st.addr).1 == name) =
          false := by
        unfold Asm.bindsName at hb
        rw [h2] at hb
        simpa using hb
      by_cases h3 : headIsAlpha (pyStrip (splitColon (pyStrip l)).1) = true
      · rw [if_pos h3] at h
        by_cases h4 : pyStrip (splitColon (pyStrip l)).2 = []
        · rw [if_pos h4] at h
          injection h with h
          rw [← h]
          exact lookupL_cons_ne _ _ _ hne
        · rw [if_neg h4] at h
          injection h with h
          rw [← h]
          exact lookupL_cons_ne _ _ _ hne
      · rw [if_neg h3] at h
        exact Except.noConfusion h
    · rw [if_neg h2] at h
      injection h with h
      rw [← h]

theorem pass1_lookup (ls : List (List Char)) (st st' : Asm.P1State)
    (name : List Char) (h : Asm.pass1 ls st = .ok st')
    (hb : ∀ l ∈ ls, Asm.bindsName l name = false) :
    lookupL st'.labels name = lookupL st.labels name := by
  induction ls generalizing st with
  | nil =>
    unfold Asm.pass1 at h
    injection h with h
    rw [h]
  | cons l ls ih =>
    unfold Asm.pass1 at h
    cases hl : Asm.pass1Line st l with
    | error e =>
      rw [hl] at h
      exact Except.noConfusion h
    | ok st2 =>
      rw [hl] at h
      rw [ih st2 h (fun x hx => hb x (List.mem_cons_of_mem _ hx))]
      exact pass1Line_lookup _ _ _ _ hl (hb l (List.mem_cons_self _ _))

theorem pass1Line_instrs (st st' : Asm.P1State) (l : List Char)
    (h : Asm.pass1Line st l = .ok st') :
    ∃ t, st'.instrs = st.instrs ++ t := by
  unfold Asm.pass1Line at h
  by_cases h1 : pyStrip l = []
  · rw [if_pos h1] at h
    injection h with h
    exact ⟨[], by rw [← h, List.append_nil]⟩
  · rw [if_neg h1] at h
    by_cases h2 : hasColon (pyStrip l) = true
    · rw [if_pos h2] at h
      by_cases h3 : headIsAlpha (pyStrip (splitColon (pyStrip l)).1) = true
      · rw [if_pos h3] at h
        by_cases h4 : pyStrip (splitColon (pyStrip l)).2 = []
        · rw [if_pos h4] at h
          injection h with h
          exact ⟨[], by rw [← h, List.append_nil]⟩
        · rw [if_neg h4] at h
          injection h with h
          exact ⟨[(pyStrip (splitColon (pyStrip l)).2, st.addr)], by rw [← h]⟩
      · rw [if_neg h3] at h
        exact Except.noConfusion h
    · rw [if_neg h2] at h
      injection h with h
      exact ⟨[(pyStrip l, st.addr)], by rw [← h]⟩

theorem pass1_instrs (ls : List (List Char)) (st st' : Asm.P1State)
    (h : Asm.pass1 ls st = .ok st') : ∃ t, st'.instrs = st.instrs ++ t := by
  induction ls generalizing st with
  | nil =>
    unfold Asm.pass1 at h
    injection h with h
    exact ⟨[], by rw [← h, List.append_nil]⟩
  | cons l ls ih =>
    unfold Asm.pass1 at h
    cases hl : Asm.pass1Line st l with
    | error e =>
      rw [hl] at h
      exact Except.noConfusion h
    | ok st2 =>
      rw [hl] at h
      obtain ⟨t1, ht1⟩ := pass1Line_instrs _ _ _ hl
      obtain ⟨t2, ht2⟩ := ih st2 h
      exact ⟨t1 ++ t2, by rw [ht2, ht1, List.append_assoc]⟩

theorem dropWhile_all_neg {p : Char → Bool} (l : List Char)
    (h : ∀ x ∈ l, p x = false) : l.dropWhile p = l := by
  cases l with
  | nil => rfl
  | cons c cs => exact dropWhile_cons_neg _ _ (h c (List.mem_cons_self _ _))

theorem pyStrip_all_nonWs (name : List Char)
    (h : ∀ x ∈ name, isWs x = false) : pyStrip name = name := by
  unfold pyStrip stripEnd
  rw [dropWhile_all_neg _ h,
      dropWhile_all_neg _ (fun x hx => h x (List.mem_reverse.mp hx)),
      List.reverse_reverse]

theorem dropWhile_label_line (name rest : List Char)
    (hname : ∀ x ∈ name, isWs x = false) :
    (name ++ ':' :: rest).dropWhile isWs = name ++ ':' :: rest := by
  cases name with
  | nil => exact dropWhile_cons_neg _ _ (by decide)
  | cons n0 ns =>
    rw [List.cons_append]
    exact dropWhile_cons_neg _ _ (hname n0 (List.mem_cons_self _ _))

theorem stripEnd_label_line (name rest : List Char)
    (hrest : stripEnd rest = rest) :
    stripEnd (name ++ ':' :: rest) = name ++ ':' :: rest := by
  have hR : rest.reverse.dropWhile isWs = rest.reverse := by
    have h0 := congrArg List.reverse hrest
    unfold stripEnd at h0
    rwa [List.reverse_reverse] at h0
  unfold stripEnd
  rw [List.reverse_append, List.reverse_cons, List.append_assoc,
      List.dropWhile_append]
  by_cases hE : (rest.reverse.dropWhile isWs).isEmpty = true
  · rw [if_pos hE]
    have h0 : rest = [] := by
      rw [hR] at hE
      have h1 : rest.reverse = [] := by
        cases hrev : rest.reverse with
        | nil => rfl
        | cons a as =>
          rw [hrev] at hE
          exact absurd hE (by simp)
      have h2 := congrArg List.reverse h1
      rwa [List.reverse_reverse] at h2
    subst h0
    rw [show ([':'] ++ name.reverse : List Char) = ':' :: name.reverse from rfl,
        dropWhile_cons_neg _ _ (by decide), List.reverse_cons,
        List.reverse_reverse]
  · rw [if_neg hE, hR, List.reverse_append, List.reverse_append,
        List.reverse_reverse, List.reverse_reverse, List.append_assoc]
    rfl

theorem splitColon_label_line (name rest : List Char)
    (hname : ∀ x ∈ name, (x == ':') = false) :
    splitColon (name ++ ':' :: rest) = (name, rest) := by
  induction name with
  | nil => rfl
  | cons n0 ns ih =>
    have hn0 : ¬ ((n0 == ':') = true) := by
      rw [hname n0 (List.mem_cons_self _ _)]
      exact Bool.false_ne_true
    rw [List.cons_append]
    unfold splitColon
    rw [if_neg hn0, ih (fun x hx => hname x (List.mem_cons_of_mem _ hx))]

theorem pass1Line_label_line (st st' : Asm.P1State) (name rest : List Char)
    (hname : name.all (fun c => !isWs c && !(c == ':')) = true)
    (hrest : stripEnd rest = rest)
    (h : Asm.pass1Line st (name ++ ':' :: rest) = .ok st') :
    st'.labels = (name, st.addr) :: st.labels ∧
      ((pyStrip rest = [] ∧ st'.instrs = st.instrs ∧ st'.addr = st.addr) ∨
       (pyStrip rest ≠ [] ∧ st'.instrs = st.instrs ++ [(pyStrip rest, st.addr)] ∧
        st'.addr = st.addr + 4)) := by
  have hnameWs : ∀ x ∈ name, isWs x = false := by
    intro x hx
    have h0 := List.all_eq_true.mp hname x hx
    rw [Bool.and_eq_true] at h0
    simpa using h0.1
  have hnameC : ∀ x ∈ name, (x == ':') = false := by
    intro x hx
    have h0 := List.all_eq_true.mp hname x hx
    rw [Bool.and_eq_true] at h0
    simpa using h0.2
  have hps : pyStrip (name ++ ':' :: rest) = name ++ ':' :: rest := by
    unfold pyStrip
    rw [dropWhile_label_line _ _ hnameWs, stripEnd_label_line _ _ hrest]
  have hsc : splitColon (name ++ ':' :: rest) = (name, rest) :=
    splitColon_label_line _ _ hnameC
  have hpn : pyStrip name = name := pyStrip_all_nonWs _ hnameWs
  unfold Asm.pass1Line at h
  simp only [hps, hsc, hpn] at h
  rw [if_neg (by simp : ¬ (name ++ ':' :: rest = ([] : List Char))),
      if_pos (by simp [hasColon] : hasColon (name ++ ':' :: rest) = true)] at h
  by_cases h3 : headIsAlpha name = true
  · rw [if_pos h3] at h
    by_cases h4 : pyStrip rest = []
    · rw [if_pos h4] at h
      injection h with h
      rw [← h]
      exact ⟨rfl, Or.inl ⟨h4, rfl, rfl⟩⟩
    · rw [if_neg h4] at h
      injection h with h
      rw [← h]
      exact ⟨rfl, Or.inr ⟨h4, rfl, rfl⟩⟩
  · rw [if_neg h3] at h
    exact Except.noConfusion h

/-- Amended claim C5: for every program accepted by the first pass of
`assembler.py`, a label definition line `name ++ ":" ++ rest` whose name is
*not redefined later in the program* is bound in the label table to
`4·k`, where `k` is the number of instructions emitted from the lines before
it; the emitted instructions sit at the addresses `0, 4, 8, …` in program
order, so `4·k` is exactly the address of the next emitted instruction (when
one exists), and when the label line carries a same-line instruction, that
instruction is the k-th emitted one, at address `4·k`.  (The original claim,
without the "last definition" qualification, fails on duplicated labels; see
the counterexample.) -/
theorem c5_labels_amended
    (pre post : List (List Char)) (name rest : List Char)
    (st1 stF : Asm.P1State)
    (hname : name.all (fun c => !isWs c && !(c == ':')) = true)
    (hrest : stripEnd rest = rest)
    (hpre : Asm.pass1 pre Asm.initState = .ok st1)
    (hall : Asm.pass1 (pre ++ (name ++ ':' :: rest) :: post) Asm.initState =
      .ok stF)
    (hpost : ∀ l ∈ post, Asm.bindsName l name = false) :
    lookupL stF.labels name = some (4 * st1.instrs.length) ∧
    (∃ t, stF.instrs = st1.instrs ++ t) ∧
    (∀ i (h : i < stF.instrs.length), (stF.instrs[i]).2 = 4 * i) ∧
    (pyStrip rest ≠ [] →
      ∃ h : st1.instrs.length < stF.instrs.length,
        stF.instrs[st1.instrs.length] =
          (pyStrip rest, 4 * st1.instrs.length)) := by
  rw [pass1_append_ok pre _ _ _ hpre] at hall
  unfold Asm.pass1 at hall
  cases hl : Asm.pass1Line st1 (name ++ ':' :: rest) with
  | error e =>
    rw [hl] at hall
    exact Except.noConfusion hall
  | ok st2 =>
    rw [hl] at hall
    obtain ⟨hlab2, hcase⟩ := pass1Line_label_line _ _ _ _ hname hrest hl
    have hInit : Asm.P1Inv Asm.initState :=
      ⟨rfl, fun i h => absurd h (by simp [Asm.initState])⟩
    have hInv1 : Asm.P1Inv st1 := pass1_inv _ _ _ hpre hInit
    have hInv2 : Asm.P1Inv st2 := pass1Line_inv _ _ _ hl hInv1
    have hInvF : Asm.P1Inv stF := pass1_inv _ _ _ hall hInv2
    have haddr : st1.addr = 4 * st1.instrs.length := hInv1.1
    have hlook : lookupL stF.labels name = lookupL st2.labels name :=
      pass1_lookup _ _ _ _ hall hpost
    refine ⟨?_, ?_, hInvF.2, ?_⟩
    · rw [hlook, hlab2]
      unfold lookupL
      rw [if_pos (beq_self_eq_true name), haddr]
    · obtain ⟨t2, ht2⟩ := pass1_instrs _ _ _ hall
      rcases hcase with ⟨_, hi, _⟩ | ⟨_, hi, _⟩
      · exact ⟨t2, by rw [ht2, hi]⟩
      · refine ⟨(pyStrip rest, st1.addr) :: t2, ?_⟩
        rw [ht2, hi, List.append_assoc]
        rfl
    · intro hne
      rcases hcase with ⟨he, _, _⟩ | ⟨_, hi2, _⟩
      · exact absurd he hne
      · obtain ⟨t2, ht2⟩ := pass1_instrs _ _ _ hall
        have hF : stF.instrs =
            st1.instrs ++ ((pyStrip rest, st1.addr) :: t2) := by
          rw [ht2, hi2, List.append_assoc]
          rfl
        have hlen2 : st1.instrs.length <
            (st1.instrs ++ ((pyStrip rest, st1.addr) :: t2)).length := by
          rw [List.length_append]
          simp only [List.length_cons]
          omega
        have hlen : st1.instrs.length < stF.instrs.length := by
          rw [hF]
          exact hlen2
        refine ⟨hlen, ?_⟩
        have hmid :=
          getElem_append_mid st1.instrs (pyStrip rest, st1.addr) t2 hlen2
        simp only [hF]
        rw [hmid, haddr]

/-- Witness for C5: program `addi a0, zero, 1` / `loop:` /
`beq zero, zero, 0` — the label-only line `loop:` is bound to 4·1 = 4, the
address of the next emitted instruction. -/
theorem c5_labels_amended_witness :
    lookupL ((Asm.P1State.mk 8
        [("addi a0, zero, 1".toList, 0), ("beq zero, zero, 0".toList, 4)]
        [("loop".toList, 4)]).labels) ("loop".toList) = some 4 :=
  (c5_labels_amended ["addi a0, zero, 1".toList] ["beq zero, zero, 0".toList]
      ("loop".toList) [] ⟨4, [("addi a0, zero, 1".toList, 0)], []⟩
      ⟨8, [("addi a0, zero, 1".toList, 0), ("beq zero, zero, 0".toList, 4)],
       [("loop".toList, 4)]⟩
      (by decide) rfl rfl rfl (by decide)).1

/-- Claim C10: duplicate label definitions never make the first pass fail —
a line is rejected exactly when its own text has an invalid label, never
because of the accumulated label table — the table maps a name to the
address bound at its textually last definition (the most recent binding
shadows all earlier ones), and every reference to a label resolves through
the finished table as `bound_address - current_address`. -/
theorem c10_duplicate_labels :
    (∀ (st : Asm.P1State) (l : List Char) (e : Err),
       Asm.pass1Line st l = .error e ↔
         (Asm.lineBadLabel l = true ∧ e = .invalidLabel)) ∧
    (∀ (A post : List (List Char)) (name rest : List Char)
       (stA stF : Asm.P1State),
       name.all (fun c => !isWs c && !(c == ':')) = true →
       stripEnd rest = rest →
       Asm.pass1 A Asm.initState = .ok stA →
       Asm.pass1 (A ++ (name ++ ':' :: rest) :: post) Asm.initState =
         .ok stF →
       (∀ l ∈ post, Asm.bindsName l name = false) →
       lookupL stF.labels name = some stA.addr) ∧
    (∀ (tok : List Char) (labels : List (List Char × Nat)) (addr a : Nat),
       lookupL labels tok = some a →
       Asm.resolveImm tok labels addr = .ok ((a : Int) - (addr : Int))) := by
  refine ⟨?_, ?_, ?_⟩
  · intro st l e
    constructor
    · intro h
      unfold Asm.pass1Line at h
      by_cases h1 : pyStrip l = []
      · rw [if_pos h1] at h
        exact Except.noConfusion h
      · rw [if_neg h1] at h
        by_cases h2 : hasColon (pyStrip l) = true
        · rw [if_pos h2] at h
          by_cases h3 : headIsAlpha (pyStrip (splitColon (pyStrip l)).1) = true
          · rw [if_pos h3] at h
            by_cases h4 : pyStrip (splitColon (pyStrip l)).2 = []
            · rw [if_pos h4] at h
              exact Except.noConfusion h
            · rw [if_neg h4] at h
              exact Except.noConfusion h
          · rw [if_neg h3] at h
            have he : Err.invalidLabel = e := by injection h
            refine ⟨?_, he.symm⟩
            unfold Asm.lineBadLabel
            have e1 : (pyStrip l).isEmpty = false := by
              cases hE : (pyStrip l).isEmpty with
              | false => rfl
              | true => exact absurd (by simpa using hE) h1
            have e3 : headIsAlpha (pyStrip (splitColon (pyStrip l)).1) =
                false := by
              cases hE : headIsAlpha (pyStrip (splitColon (pyStrip l)).1) with
              | false => rfl
              | true => exact absurd hE h3
            rw [e1, h2, e3]
            rfl
        · rw [if_neg h2] at h
          exact Except.noConfusion h
    · rintro ⟨hb, rfl⟩
      unfold Asm.lineBadLabel at hb
      rw [Bool.and_eq_true, Bool.and_eq_true] at hb
      obtain ⟨⟨hb1, hb2⟩, hb3⟩ := hb
      have e1 : ¬ (pyStrip l = []) := by
        intro hE
        rw [hE] at hb1
        exact absurd hb1 (by decide)
      have e3 : ¬ (headIsAlpha (pyStrip (splitColon (pyStrip l)).1) = true) := by
        intro hE
        rw [hE] at hb3
        exact absurd hb3 (by decide)
      unfold Asm.pass1Line
      rw [if_neg e1, if_pos hb2, if_neg e3]
  · intro A post name rest stA stF hname hrest hA hall hpost
    rw [pass1_append_ok A _ _ _ hA] at hall
    unfold Asm.pass1 at hall
    cases hl : Asm.pass1Line stA (name ++ ':' :: rest) with
    | error e =>
      rw [hl] at hall
      exact Except.noConfusion hall
    | ok st2 =>
      rw [hl] at hall
      obtain ⟨hlab2, _⟩ := pass1Line_label_line _ _ _ _ hname hrest hl
      have hlook : lookupL stF.labels name = lookupL st2.labels name :=
        pass1_lookup _ _ _ _ hall hpost
      rw [hlook, hlab2]
      unfold lookupL
      rw [if_pos (beq_self_eq_true name)]
  · intro tok labels addr a h
    unfold Asm.resolveImm
    rw [h]

/-- Witness for C10: the duplicated label `x` in
`x: addi a0, zero, 1` / `x: beq zero,zero,0` does not make the first pass
fail, and the table maps `x` to 4, the address of its textually last
definition. -/
theorem c10_duplicate_labels_witness :
    lookupL ((Asm.P1State.mk 8
        [("addi a0, zero, 1".toList, 0), ("beq zero,zero,0".toList, 4)]
        [("x".toList, 4), ("x".toList, 0)]).labels) ("x".toList) = some 4 :=
  (c10_duplicate_labels.2.1) ["x: addi a0, zero, 1".toList] []
    ("x".toList) (" beq zero,zero,0".toList)
    ⟨4, [("addi a0, zero, 1".toList, 0)], [("x".toList, 0)]⟩
    ⟨8, [("addi a0, zero, 1".toList, 0), ("beq zero,zero,0".toList, 4)],
     [("x".toList, 4), ("x".toList, 0)]⟩
    (by decide) rfl rfl rfl (by decide)

/-- Counterexample to claim C9 as stated: register resolution in
`vidhush_bhaiya.py` does not accept the alias `fp` — its register table has
only the 32 canonical names, so `add fp, a0, a1` fails with
`InvalidRegister` there, while `assembler.py`/`final_code.py` resolve `fp`
to 8. -/
theorem c9_fp_counterexample :
    lookupL Vid.registers ("fp".toList) = none ∧
    Vid.assembleInstruction ("add".toList) ("fp, a0, a1".toList) 0 [] =
      .error .invalidRegister ∧
    Asm.parse_register ("fp".toList) = .ok 8 :=
  ⟨rfl, rfl, rfl⟩
